import Mathlib

/-!
Shallow embedding of gizmo/field.py (and the pieces of gizmo/entity.py the
claims reference).  Python values are modelled by `PyVal`; a raised Python
exception is modelled by `none` / a dedicated result constructor.
-/

set_option maxHeartbeats 1000000

namespace Gizmo

/-- A Python value, restricted to the shapes the claims exercise.
`vfn i` models a callable object (compared by identity `i`); invoking it is
modelled by an environment `Nat → PyVal`.  Dict/list values (used only by the
Map/List field classes, which no claim touches) are not modelled. -/
inductive PyVal where
  | vnone
  | vint (n : Int)
  | vfloat (q : Rat)
  | vstr (s : String)
  | vbool (b : Bool)
  | vfn (id : Nat)
  deriving DecidableEq, Repr

open PyVal

/-- Numeric view used by Python `==`: bools compare as 0/1, ints as rationals. -/
def PyVal.asNum : PyVal → Option Rat
  | vint n => some (n : Rat)
  | vfloat q => some q
  | vbool b => some (if b then 1 else 0)
  | _ => none

/-- Python `==` on the modelled values. -/
def pyEq (a b : PyVal) : Bool :=
  match a.asNum, b.asNum with
  | some x, some y => x == y
  | _, _ =>
    match a, b with
    | vnone, vnone => true
    | vstr s, vstr t => s == t
    | vfn i, vfn j => i == j
    | _, _ => false

/-- Python truthiness (`if not value:` and friends). -/
def pyTruthy : PyVal → Bool
  | vnone => false
  | vint n => n != 0
  | vfloat q => q != 0
  | vstr s => s != ""
  | vbool b => b
  | vfn _ => true

/-- Whether the value is a callable (`hasattr(value, '__call__')`). -/
def PyVal.isFn : PyVal → Bool
  | vfn _ => true
  | _ => false

/-- ASCII `str.lower()` on one character. -/
def charLower (c : Char) : Char :=
  if 'A' ≤ c ∧ c ≤ 'Z' then Char.ofNat (c.toNat + 32) else c

/-- The whitespace recognised by `str.strip()` / `float(str)`. -/
def isPySpace (c : Char) : Bool :=
  c == ' ' || c == '\t' || c == '\n' || c == '\r'

/-- `str.strip()` over the character list. -/
def stripChars (cs : List Char) : List Char :=
  ((cs.dropWhile isPySpace).reverse.dropWhile isPySpace).reverse

/-- `s.lower().strip()` (the combination Boolean.to_python applies). -/
def pyLowerStrip (s : String) : String :=
  String.mk (stripChars (s.data.map charLower))

/-- Value of a digit string. -/
def digitsVal (cs : List Char) : Nat :=
  cs.foldl (fun a c => a * 10 + (c.toNat - 48)) 0

/-- Least `k ≤ 64` with `den ∣ 10 ^ k`, if any. -/
def decPow (den : Nat) : Option Nat :=
  (List.range 65).find? (fun k => 10 ^ k % den == 0)

/-- Decimal rendering of a rational whose denominator divides a power of 10,
matching Python `str` on the floats representable that way. -/
def decStr (q : Rat) : String :=
  match decPow q.den with
  | none => "<float>"
  | some k =>
    let n : Nat := q.num.natAbs * (10 ^ k / q.den)
    let sign := if q.num < 0 then "-" else ""
    if k == 0 then sign ++ toString n ++ ".0"
    else
      let s := toString n
      let s := if s.length ≤ k then String.mk (List.replicate (k + 1 - s.length) '0') ++ s else s
      sign ++ s.take (s.length - k) ++ "." ++ s.drop (s.length - k)

/-- Python `str` on the modelled values. -/
def pyStr : PyVal → String
  | vnone => "None"
  | vint n => toString n
  | vfloat q => decStr q
  | vstr s => s
  | vbool b => if b then "True" else "False"
  | vfn _ => "<function>"

/-- The fragment of `json.loads` the Boolean coercion can reach: the literals
`true`, `false`, `null` and plain decimal numbers.  JSON strings, arrays and
objects are not modelled (they cannot arise from the claims' inputs); on any
other input the parse fails, modelling the raised exception. -/
def jsonLoads (s : String) : Option PyVal :=
  if s = "true" then some (vbool true)
  else if s = "false" then some (vbool false)
  else if s = "null" then some vnone
  else
    let cs := s.data
    let (neg, cs) := match cs with
      | '-' :: r => (true, r)
      | _ => (false, cs)
    let ip := cs.takeWhile Char.isDigit
    let rest := cs.drop ip.length
    if ip = [] then none
    else if ip.length > 1 ∧ ip.headD '0' = '0' then none
    else
      match rest with
      | [] => some (vint (if neg then -(digitsVal ip : Int) else (digitsVal ip : Int)))
      | '.' :: fr =>
        if fr ≠ [] ∧ fr.all Char.isDigit then
          let q : Rat := (digitsVal ip : Rat) + (digitsVal fr : Rat) / (10 : Rat) ^ fr.length
          some (vfloat (if neg then -q else q))
        else none
      | _ => none

/-- The fragment of Python `float(str)` needed here: optional surrounding
whitespace, optional sign, decimal digits with an optional fractional part.
Exponents and the inf/nan spellings are not modelled. -/
def parseFloatStr (s : String) : Option Rat :=
  let cs := stripChars s.data
  let (neg, cs) := match cs with
    | '-' :: r => (true, r)
    | '+' :: r => (false, r)
    | _ => (false, cs)
  let ip := cs.takeWhile Char.isDigit
  let rest := cs.drop ip.length
  match rest with
  | [] =>
    if ip = [] then none
    else some (if neg then -(digitsVal ip : Rat) else (digitsVal ip : Rat))
  | '.' :: fr =>
    if fr.all Char.isDigit ∧ (ip ≠ [] ∨ fr ≠ []) then
      let q : Rat := (digitsVal ip : Rat) + (digitsVal fr : Rat) / (10 : Rat) ^ fr.length
      some (if neg then -q else q)
    else none
  | _ => none

/-- Python `float(x)`; `none` models a raised exception. -/
def pyFloat : PyVal → Option Rat
  | vint n => some (n : Rat)
  | vfloat q => some q
  | vbool b => some (if b then 1 else 0)
  | vstr s => parseFloatStr s
  | _ => none

/-- Python `int` applied to a float truncates toward zero. -/
def ratTrunc (q : Rat) : Int :=
  if 0 ≤ q.num then ((q.num.toNat / q.den : Nat) : Int)
  else -((q.num.natAbs / q.den : Nat) : Int)

/-- Python `int(x)` without a `float` round-trip (used by Increment): digit
strings only. -/
def pyIntStrict : PyVal → Option Int
  | vint n => some n
  | vfloat q => some (ratTrunc q)
  | vbool b => some (if b then 1 else 0)
  | vstr s =>
    let cs := stripChars s.data
    let (neg, cs2) := match cs with
      | '-' :: r => (true, r)
      | '+' :: r => (false, r)
      | _ => (false, cs)
    if cs2 ≠ [] ∧ cs2.all Char.isDigit then
      some (if neg then -(digitsVal cs2 : Int) else (digitsVal cs2 : Int))
    else none
  | _ => none

/-- Body of Boolean.to_python: `bool(json.loads(str(v).lower().strip()))`,
with any raise caught and turned into `False`. -/
def booleanToPython (fv : PyVal) : PyVal :=
  match jsonLoads (pyLowerStrip (pyStr fv)) with
  | some v => vbool (pyTruthy v)
  | none => vbool false

/-- The field classes of gizmo/field.py that the claims exercise (Map and
List are omitted: no claim concerns them).  Enum carries its `allowed` list. -/
inductive FieldKind where
  | base
  | string
  | integer
  | increment
  | float
  | boolean
  | datetime
  | timestamp
  | enum (allowed : List PyVal)

/-- Identity of `gizmo.utils.current_date_time`.  Modelled from the spec:
gizmo/utils.py is not under src/, and the spec says time fields default to a
producer of the current timestamp, so it is modelled as an opaque callable. -/
def current_date_time_id : Nat := 0

/-- `default_value` per class: `Field.default_value` is None; DateTime (and
TimeStamp, which inherits it) returns the `current_date_time` callable. -/
def FieldKind.default_value : FieldKind → PyVal
  | .datetime => vfn current_date_time_id
  | .timestamp => vfn current_date_time_id
  | _ => vnone

/-- The state of a `Field` instance.  `changes` is `_changes`,
`initial_value` is `_initial_value`. -/
structure Field where
  kind : FieldKind
  field_value : PyVal
  initial_value : PyVal
  changes : List PyVal
  set_count : Nat
  set_max : Option Int
  data_type : String
  track_changes : Bool

/-- Field._can_set: returns the boolean and the state with `set_count`
incremented (the increment happens on every attempt). -/
def Field.can_set (f : Field) : Bool × Field :=
  let ok := match f.set_max with
    | none => true
    | some m => decide ((f.set_count : Int) ≤ m)
  (ok, { f with set_count := f.set_count + 1 })

/-- `if hasattr(value, '__call__'): value = value()` — a callable argument is
invoked (through the environment) before it is stored. -/
def resolveCallable (env : Nat → PyVal) : PyVal → PyVal
  | vfn i => env i
  | v => v

/-- Field._set_value.  Note: the `value` property captures `Field._set_value`
at class-body time, so every assignment through `field.value = v` runs this
function, for Enum instances as well (Enum's override is never reached that
way).  `env` interprets callables. -/
def Field.set_value (env : Nat → PyVal) (f : Field) (value : PyVal) : Field :=
  let r := f.can_set
  if r.1 then
    let value := resolveCallable env value
    let f2 := if pyEq value r.2.field_value then r.2
              else { r.2 with changes := r.2.changes ++ [value] }
    { f2 with field_value := value }
  else r.2

/-- Field._del_value. -/
def Field.del_value (f : Field) : Field := { f with field_value := vnone }

/-- Dispatch of `self.to_python()`; overriding works normally here (unlike
the property's statically captured setter).  `none` models a raise. -/
def Field.to_python (f : Field) : Option PyVal :=
  match f.kind with
  | .base | .string | .enum _ => some f.field_value
  | .integer | .increment =>
    if pyTruthy f.field_value then (pyFloat f.field_value).map (fun q => vint (ratTrunc q))
    else some (vint 0)
  | .float =>
    -- Float spells its override `to_ptyhon`, so `to_python` is inherited
    -- from Field and is the identity.
    some f.field_value
  | .boolean => some (booleanToPython f.field_value)
  | .datetime | .timestamp =>
    let value := if f.field_value = vnone ∨ pyEq f.field_value (vstr "") then vint 0
                 else f.field_value
    (pyFloat value).map (fun q => vint (Int.fdiv (ratTrunc q) 1000))

/-- The body Float spells `to_ptyhon`; because of the misspelling it never
overrides `to_python` and is dead code. -/
def Float_to_ptyhon (f : Field) : Option PyVal :=
  if pyTruthy f.field_value then (pyFloat f.field_value).map (fun q => vfloat q)
  else some (vint 0)

/-- Dispatch of `self.to_graph()`. -/
def Field.to_graph (f : Field) : Option PyVal :=
  match f.kind with
  | .base | .string | .float | .enum _ =>
    some (if f.field_value = vnone then vstr "" else f.field_value)
  | .integer => Field.to_python f
  | .increment =>
    let val := if pyTruthy f.field_value then f.field_value else vint 0
    (pyIntStrict val).map (fun n => vint (n + 1))
  | .boolean => some (vstr (if pyTruthy f.field_value then "true" else "false"))
  | .datetime | .timestamp =>
    if f.field_value = vnone ∨ pyEq f.field_value (vstr "") then some (vstr "")
    else (pyFloat f.field_value).map (fun q => vint (ratTrunc q))

/-- Field._get_value: the `value` property getter. -/
def Field.get_value (f : Field) : Option PyVal :=
  if f.data_type = "python" then f.to_python else f.to_graph

/-- Field.changed: `self._initial_value != self.value`; raises iff the value
read raises. -/
def Field.changed (f : Field) : Option Bool :=
  f.get_value.map (fun v => !pyEq f.initial_value v)

/-- Field.__init__.  The final statement `self.value = value` goes through
the `value` property, i.e. `Field._set_value`; `track_changes` is stored as
an attribute (the source assigns it after the property write, which the
write does not read). -/
def Field.init (env : Nat → PyVal) (kind : FieldKind) (value : PyVal)
    (data_type : String) (set_max : Option Int) (track_changes : Bool) : Field :=
  let value := if pyTruthy value then value else kind.default_value
  let f : Field :=
    { kind := kind, field_value := value, initial_value := value,
      changes := [value], set_count := 0, set_max := set_max,
      data_type := data_type, track_changes := track_changes }
  f.set_value env value

/-- Enum.__init__; `none` models the IndexError raised when `allowed` is
empty and no value is given. -/
def Enum.init (env : Nat → PyVal) (allowed : Option (List PyVal)) (value : PyVal)
    (data_type : String) (set_max : Option Int) (track_changes : Bool) : Option Field :=
  let allowed := allowed.getD []
  let value? : Option PyVal := if value = vnone then allowed.head? else some value
  value?.map (fun v => Field.init env (.enum allowed) v data_type set_max track_changes)

/-- Enum._set_value as written.  Through the `value` property this override
is unreachable (the property holds `Field._set_value`); it is modelled
separately to exhibit the intended guard. -/
def Enum_set_value (f : Field) (value : PyVal) : Field :=
  let allowed := match f.kind with
    | .enum a => a
    | _ => []
  let (ok, f) := f.can_set
  if ok && allowed.any (fun a => pyEq value a) then { f with field_value := value }
  else f

/-- A sequence of assignments through the `value` property. -/
def applySets (env : Nat → PyVal) (f : Field) (args : List PyVal) : Field :=
  args.foldl (Field.set_value env) f

/-- The association-list content of a Python dict of field values. -/
abbrev Data := List (String × PyVal)

/-- Dict assignment `data[name] = v`. -/
def setKey : Data → String → PyVal → Data
  | [], n, v => [(n, v)]
  | (m, w) :: rest, n, v =>
    if m = n then (m, v) :: rest else (m, w) :: setKey rest n v

/-- Insert an item into a key-sorted list. -/
def insortKey (p : String × PyVal) : Data → Data
  | [] => [p]
  | q :: rest => if p.1 ≤ q.1 then p :: q :: rest else q :: insortKey p rest

/-- `sorted(data.items())` (dict keys are distinct, so comparing keys
suffices). -/
def sortData : Data → Data
  | [] => []
  | p :: rest => insortKey p (sortData rest)

/-- The state of a `_Fields` collection that the claims need: its entries
and its `data_type`.  The expander list always begins with the bound
built-in `_get_data`; extra expanders are passed explicitly. -/
structure Fields where
  entries : List (String × Field)
  data_type : String

/-- Result of calling one expander: it may raise, return a non-dict value,
or return a dict. -/
inductive ExpRes where
  | raised
  | nondict
  | ok (d : Data)

abbrev Expander := Data → ExpRes

/-- Result of `full_data`: a propagated raise, the ValueError for a non-dict
expander return, or the final dict. -/
inductive FullRes where
  | raised
  | valueError
  | ok (d : Data)
  deriving DecidableEq

/-- Loop body of _Fields._get_data: each field's `data_type` is synced to
the collection's, then its value is written into the accumulator; a raise
in any value read propagates. -/
def fields_get_data (dt : String) : List (String × Field) → Data → Option Data
  | [], data => some data
  | (n, f) :: rest, data =>
    match Field.get_value { f with data_type := dt } with
    | none => none
    | some v => fields_get_data dt rest (setKey data n v)

/-- _Fields._get_data as an expander.  (`if not data: data = {}` replaces an
empty accumulator by a fresh empty dict, which changes nothing observable.) -/
def Fields.get_data_expander (fs : Fields) : Expander := fun data =>
  let data := if data.isEmpty then [] else data
  match fields_get_data fs.data_type fs.entries data with
  | none => .raised
  | some d => .ok d

/-- The expander loop of _Fields.full_data. -/
def run_expanders : List Expander → Data → FullRes
  | [], d => .ok d
  | e :: es, d =>
    match e d with
    | .raised => .raised
    | .nondict => .valueError
    | .ok d2 => run_expanders es d2

/-- _Fields.full_data over the built-in expander followed by `extra`. -/
def Fields.full_data (fs : Fields) (extra : List Expander) : FullRes :=
  match run_expanders (fs.get_data_expander :: extra) [] with
  | .ok d => .ok (sortData d)
  | r => r

/-- Whether, running the expanders in order, some expander returns a
non-dict value (a raise stops the run without any such return). -/
def badStep : List Expander → Data → Bool
  | [], _ => false
  | e :: es, d =>
    match e d with
    | .raised => false
    | .nondict => true
    | .ok d2 => badStep es d2

/-- One pass of the `changed`/`unchanged` properties: `changed()` is tested
with the field's current `data_type`; for the fields included, `data_type`
is set to the collection's before the value is read, and that mutation
persists in the returned entry list.  `none` models a raise. -/
def view_pass (dt : String) (want : Bool) :
    List (String × Field) → Option (Data × List (String × Field))
  | [] => some ([], [])
  | (n, f) :: rest =>
    if f.track_changes then
      (Field.changed f).bind (fun c =>
        if c = want then
          let f2 := { f with data_type := dt }
          (Field.get_value f2).bind (fun v =>
            (view_pass dt want rest).map (fun p => ((n, v) :: p.1, (n, f2) :: p.2)))
        else
          (view_pass dt want rest).map (fun p => (p.1, (n, f) :: p.2)))
    else
      (view_pass dt want rest).map (fun p => (p.1, (n, f) :: p.2))

/-- _Fields.changed. -/
def Fields.changed (fs : Fields) : Option Data :=
  (view_pass fs.data_type true fs.entries).map (fun p => sortData p.1)

/-- _Fields.unchanged. -/
def Fields.unchanged (fs : Fields) : Option Data :=
  (view_pass fs.data_type false fs.entries).map (fun p => sortData p.1)

/-- _Fields.removed: computes `changed` (whose data_type writes persist),
then `unchanged` on the resulting state, and returns the key difference. -/
def Fields.removed (fs : Fields) : Option (List String) :=
  (view_pass fs.data_type true fs.entries).bind (fun ce =>
    (view_pass fs.data_type false ce.2).map (fun ue =>
      ((sortData ce.1).map Prod.fst).filter
        (fun n => !((sortData ue.1).map Prod.fst).contains n)))

/-! Concrete objects used by counterexamples and witnesses. -/

/-- A trivial callable environment. -/
def env0 : Nat → PyVal := fun _ => vnone

/-- `String()` — a String field constructed with no value. -/
def exStrDefault : Field :=
  Field.init env0 .string vnone "python" none true

/-- `Field('x')` then `f.value = 'y'` — a changed base field. -/
def exChangedField : Field :=
  Field.set_value env0 (Field.init env0 .base (vstr "x") "python" none true) (vstr "y")

/-- A collection with one changed tracked field. -/
def exFields : Fields := { entries := [("a", exChangedField)], data_type := "python" }

/-- `Integer()` — an Integer field constructed with no value. -/
def exIntDefault : Field :=
  Field.init env0 .integer vnone "python" none true

/-- `Float()` — a Float field constructed with no value. -/
def exFloatDefault : Field :=
  Field.init env0 .float vnone "python" none true

/-- The Enum field `Enum(allowed=['a','b'], value='a')` produces. -/
def exEnum : Field :=
  Field.init env0 (.enum [vstr "a", vstr "b"]) (vstr "a") "python" none true

/-- `DateTime(1500)` read natively. -/
def exDt1500 : Field :=
  Field.init env0 .datetime (vint 1500) "python" none true

/-- `DateTime(1500)` read in the transport representation. -/
def exDt1500g : Field :=
  Field.init env0 .datetime (vint 1500) "graph" none true

/-- A Boolean field with stored value `v` in the transport representation. -/
def boolFieldG (v : PyVal) : Field :=
  { kind := .boolean, field_value := v, initial_value := v, changes := [v],
    set_count := 1, set_max := none, data_type := "graph", track_changes := true }

/-- A Boolean field with stored value `v` in the native representation. -/
def boolFieldP (v : PyVal) : Field :=
  { kind := .boolean, field_value := v, initial_value := v, changes := [v],
    set_count := 1, set_max := none, data_type := "python", track_changes := true }

/-- Transport rendering of a Boolean field whose stored value is `v`. -/
def boolToTransport (v : PyVal) : Option PyVal := (boolFieldG v).get_value

/-- Native rendering of a Boolean field whose stored value is `v`. -/
def boolToNative (v : PyVal) : Option PyVal := (boolFieldP v).get_value

/-- `toTransport(toNative(toTransport(x)))`. -/
def boolRoundTrip (x : PyVal) : Option PyVal :=
  (boolToTransport x).bind (fun t => (boolToNative t).bind boolToTransport)

/-- A collection holding only `String()` under name a. -/
def fsOneString : Fields := { entries := [("a", exStrDefault)], data_type := "python" }

/-- An expander violating the return-type contract. -/
def badExpander : Expander := fun _ => .nondict

end Gizmo


namespace Gizmo

open PyVal

/-! Helper lemmas shared by several claims. -/

theorem pyEq_refl (v : PyVal) : pyEq v v = true := by
  cases v <;> simp [pyEq, PyVal.asNum]

theorem resolveCallable_not_fn (env : Nat → PyVal) (v : PyVal) (h : v.isFn = false) :
    resolveCallable env v = v := by
  cases v <;> simp_all [resolveCallable, PyVal.isFn]

theorem can_set_snd (f : Field) : (f.can_set).2 = { f with set_count := f.set_count + 1 } := rfl

theorem set_value_rejected (env : Nat → PyVal) (f : Field) (v : PyVal)
    (h : (f.can_set).1 = false) :
    Field.set_value env f v = { f with set_count := f.set_count + 1 } := by
  simp only [Field.set_value, h, Bool.false_eq_true, if_false, can_set_snd]

theorem set_value_accepted (env : Nat → PyVal) (f : Field) (v : PyVal)
    (h : (f.can_set).1 = true) :
    Field.set_value env f v =
      { f with set_count := f.set_count + 1,
               changes := if pyEq (resolveCallable env v) f.field_value then f.changes
                          else f.changes ++ [resolveCallable env v],
               field_value := resolveCallable env v } := by
  simp only [Field.set_value, h, if_true, can_set_snd]
  split <;> rfl

theorem set_value_set_count (env : Nat → PyVal) (f : Field) (v : PyVal) :
    (Field.set_value env f v).set_count = f.set_count + 1 := by
  cases h : (f.can_set).1
  · rw [set_value_rejected env f v h]
  · rw [set_value_accepted env f v h]

theorem set_value_set_max (env : Nat → PyVal) (f : Field) (v : PyVal) :
    (Field.set_value env f v).set_max = f.set_max := by
  cases h : (f.can_set).1
  · rw [set_value_rejected env f v h]
  · rw [set_value_accepted env f v h]

theorem set_value_kind (env : Nat → PyVal) (f : Field) (v : PyVal) :
    (Field.set_value env f v).kind = f.kind := by
  cases h : (f.can_set).1
  · rw [set_value_rejected env f v h]
  · rw [set_value_accepted env f v h]

theorem set_value_data_type (env : Nat → PyVal) (f : Field) (v : PyVal) :
    (Field.set_value env f v).data_type = f.data_type := by
  cases h : (f.can_set).1
  · rw [set_value_rejected env f v h]
  · rw [set_value_accepted env f v h]

theorem set_value_initial_value (env : Nat → PyVal) (f : Field) (v : PyVal) :
    (Field.set_value env f v).initial_value = f.initial_value := by
  cases h : (f.can_set).1
  · rw [set_value_rejected env f v h]
  · rw [set_value_accepted env f v h]

theorem get_value_ext (f g : Field) (h1 : f.kind = g.kind) (h2 : f.field_value = g.field_value)
    (h3 : f.data_type = g.data_type) : Field.get_value f = Field.get_value g := by
  cases f
  cases g
  cases h1
  cases h2
  cases h3
  rfl

theorem applySets_set_count (env : Nat → PyVal) (args : List PyVal) :
    ∀ f : Field, (applySets env f args).set_count = f.set_count + args.length := by
  induction args with
  | nil => intro f; rfl
  | cons a rest ih =>
    intro f
    show (applySets env (Field.set_value env f a) rest).set_count = _
    rw [ih, set_value_set_count, List.length_cons]
    omega

theorem applySets_set_max (env : Nat → PyVal) (args : List PyVal) :
    ∀ f : Field, (applySets env f args).set_max = f.set_max := by
  induction args with
  | nil => intro f; rfl
  | cons a rest ih =>
    intro f
    show (applySets env (Field.set_value env f a) rest).set_max = _
    rw [ih, set_value_set_max]

theorem init_set_count (env : Nat → PyVal) (kind : FieldKind) (v : PyVal) (dt : String)
    (sm : Option Int) (tc : Bool) : (Field.init env kind v dt sm tc).set_count = 1 := by
  unfold Field.init
  rw [set_value_set_count]

theorem init_set_max (env : Nat → PyVal) (kind : FieldKind) (v : PyVal) (dt : String)
    (sm : Option Int) (tc : Bool) : (Field.init env kind v dt sm tc).set_max = sm := by
  unfold Field.init
  rw [set_value_set_max]

theorem init_kind (env : Nat → PyVal) (kind : FieldKind) (v : PyVal) (dt : String)
    (sm : Option Int) (tc : Bool) : (Field.init env kind v dt sm tc).kind = kind := by
  unfold Field.init
  rw [set_value_kind]

theorem init_data_type (env : Nat → PyVal) (kind : FieldKind) (v : PyVal) (dt : String)
    (sm : Option Int) (tc : Bool) : (Field.init env kind v dt sm tc).data_type = dt := by
  unfold Field.init
  rw [set_value_data_type]

theorem init_initial_value (env : Nat → PyVal) (kind : FieldKind) (v : PyVal) (dt : String)
    (sm : Option Int) (tc : Bool) :
    (Field.init env kind v dt sm tc).initial_value
      = (if pyTruthy v then v else kind.default_value) := by
  unfold Field.init
  rw [set_value_initial_value]

theorem set_value_field_value_cases (env : Nat → PyVal) (f : Field) (v : PyVal) :
    (Field.set_value env f v).field_value = resolveCallable env v ∨
    (Field.set_value env f v).field_value = f.field_value := by
  cases h : (f.can_set).1
  · right
    rw [set_value_rejected _ _ _ h]
  · left
    rw [set_value_accepted _ _ _ h]

theorem init_field_value_not_fn (env : Nat → PyVal) (kind : FieldKind) (v : PyVal) (dt : String)
    (sm : Option Int) (tc : Bool)
    (h : (if pyTruthy v then v else kind.default_value).isFn = false) :
    (Field.init env kind v dt sm tc).field_value
      = (if pyTruthy v then v else kind.default_value) := by
  simp only [Field.init]
  rcases set_value_field_value_cases env _ _ with h2 | h2
  · rw [h2]
    exact resolveCallable_not_fn env _ h
  · rw [h2]

end Gizmo

namespace Gizmo

open PyVal

theorem mem_insortKey (p x : String × PyVal) (l : Data) :
    x ∈ insortKey p l ↔ x = p ∨ x ∈ l := by
  induction l with
  | nil => simp [insortKey]
  | cons q rest ih =>
    simp only [insortKey]
    split
    · simp [List.mem_cons]
    · simp only [List.mem_cons, ih]
      tauto

theorem pairwise_insortKey (p : String × PyVal) (l : Data)
    (h : l.Pairwise (fun a b => a.1 ≤ b.1)) :
    (insortKey p l).Pairwise (fun a b => a.1 ≤ b.1) := by
  induction l with
  | nil => simp [insortKey]
  | cons q rest ih =>
    rw [List.pairwise_cons] at h
    obtain ⟨hq, hrest⟩ := h
    simp only [insortKey]
    split
    · rename_i hle
      refine List.Pairwise.cons ?_ (List.Pairwise.cons hq hrest)
      intro x hx
      rcases List.mem_cons.mp hx with rfl | hx
      · exact hle
      · exact le_trans hle (hq x hx)
    · rename_i hnle
      have hqp : q.1 ≤ p.1 := le_of_not_le hnle
      refine List.Pairwise.cons ?_ (ih hrest)
      intro x hx
      rcases (mem_insortKey p x rest).mp hx with rfl | hx
      · exact hqp
      · exact hq x hx

theorem pairwise_sortData (l : Data) : (sortData l).Pairwise (fun a b => a.1 ≤ b.1) := by
  induction l with
  | nil => simp [sortData]
  | cons p rest ih => exact pairwise_insortKey p _ ih

theorem mem_sortData (x : String × PyVal) (l : Data) : x ∈ sortData l ↔ x ∈ l := by
  induction l with
  | nil => simp [sortData]
  | cons p rest ih => simp [sortData, mem_insortKey, ih]

theorem mem_map_fst_sortData (n : String) (l : Data) :
    n ∈ (sortData l).map Prod.fst ↔ n ∈ l.map Prod.fst := by
  simp [List.mem_map, mem_sortData]

theorem keys_nodup_unique {α : Type} (l : List (String × α)) (hnd : (l.map Prod.fst).Nodup) :
    ∀ (n : String) (f g : α), (n, f) ∈ l → (n, g) ∈ l → f = g := by
  induction l with
  | nil => simp
  | cons p rest ih =>
    obtain ⟨m, x⟩ := p
    rw [List.map_cons, List.nodup_cons] at hnd
    obtain ⟨hp, hrest⟩ := hnd
    intro n f g hf hg
    rcases List.mem_cons.mp hf with hf2 | hf2
    · rcases List.mem_cons.mp hg with hg2 | hg2
      · rw [Prod.mk.injEq] at hf2 hg2
        rw [hf2.2, hg2.2]
      · rw [Prod.mk.injEq] at hf2
        have hn : n = m := hf2.1
        subst hn
        exact absurd (List.mem_map_of_mem Prod.fst hg2) hp
    · rcases List.mem_cons.mp hg with hg2 | hg2
      · rw [Prod.mk.injEq] at hg2
        have hn : n = m := hg2.1
        subst hn
        exact absurd (List.mem_map_of_mem Prod.fst hf2) hp
      · exact ih hrest n f g hf2 hg2

theorem with_data_type_self (f : Field) (dt : String) (h : f.data_type = dt) :
    { f with data_type := dt } = f := by
  cases f
  cases h
  rfl

theorem run_expanders_valueError (L : List Expander) :
    ∀ d : Data, run_expanders L d = FullRes.valueError ↔ badStep L d = true := by
  induction L with
  | nil => intro d; simp [run_expanders, badStep]
  | cons e es ih =>
    intro d
    simp only [run_expanders, badStep]
    cases h : e d with
    | raised => simp
    | nondict => simp
    | ok d2 => simpa using ih d2

theorem run_expanders_not_raised (L : List Expander)
    (hnr : ∀ e ∈ L, ∀ d, e d ≠ ExpRes.raised) :
    ∀ d : Data, run_expanders L d ≠ FullRes.raised := by
  induction L with
  | nil => intro d; simp [run_expanders]
  | cons e es ih =>
    intro d
    simp only [run_expanders]
    cases h : e d with
    | raised => exact absurd h (hnr e (List.mem_cons_self e es) d)
    | nondict => simp
    | ok d2 =>
      exact ih (fun e2 he2 d3 => hnr e2 (List.mem_cons_of_mem e he2) d3) d2

theorem fields_get_data_isSome (dt : String) :
    ∀ entries : List (String × Field),
      (∀ p ∈ entries, Field.get_value { (p : String × Field).2 with data_type := dt } ≠ none) →
      ∀ d, fields_get_data dt entries d ≠ none := by
  intro entries
  induction entries with
  | nil => intro _ d; simp [fields_get_data]
  | cons p rest ih =>
    obtain ⟨n, f⟩ := p
    intro h d
    simp only [fields_get_data]
    cases hv : Field.get_value { f with data_type := dt } with
    | none => exact absurd hv (h (n, f) (List.mem_cons_self _ _))
    | some v => exact ih (fun q hq => h q (List.mem_cons_of_mem _ hq)) _

theorem get_data_expander_not_raised (fs : Fields)
    (h : ∀ p ∈ fs.entries, Field.get_value { (p : String × Field).2 with data_type := fs.data_type } ≠ none) :
    ∀ d, fs.get_data_expander d ≠ ExpRes.raised := by
  intro d
  simp only [Fields.get_data_expander]
  cases hf : fields_get_data fs.data_type fs.entries (if d.isEmpty then [] else d) with
  | none => exact absurd hf (fields_get_data_isSome _ _ h _)
  | some d2 => simp

end Gizmo

namespace Gizmo

open PyVal

theorem view_pass_entries (dt : String) (wt : Bool) :
    ∀ entries : List (String × Field),
      (∀ p ∈ entries, (p : String × Field).2.data_type = dt) →
      ∀ d es, view_pass dt wt entries = some (d, es) → es = entries := by
  intro entries
  induction entries with
  | nil =>
    intro _ d es h
    simp only [view_pass, Option.some.injEq, Prod.mk.injEq] at h
    exact h.2.symm
  | cons p rest ih =>
    obtain ⟨n, f⟩ := p
    intro hdt d es h
    have hdtf : f.data_type = dt := hdt (n, f) (List.mem_cons_self _ _)
    have hrest : ∀ p ∈ rest, (p : String × Field).2.data_type = dt :=
      fun q hq => hdt q (List.mem_cons_of_mem _ hq)
    simp only [view_pass] at h
    by_cases htc : f.track_changes = true
    · rw [if_pos htc, Option.bind_eq_some] at h
      obtain ⟨c, hch, h⟩ := h
      by_cases hcw : c = wt
      · rw [if_pos hcw, with_data_type_self f dt hdtf, Option.bind_eq_some] at h
        obtain ⟨v, hv, h⟩ := h
        rw [Option.map_eq_some'] at h
        obtain ⟨⟨d2, es2⟩, hvp, h⟩ := h
        rw [Prod.mk.injEq] at h
        rw [← h.2, ih hrest d2 es2 hvp]
      · rw [if_neg hcw, Option.map_eq_some'] at h
        obtain ⟨⟨d2, es2⟩, hvp, h⟩ := h
        rw [Prod.mk.injEq] at h
        rw [← h.2, ih hrest d2 es2 hvp]
    · rw [if_neg htc, Option.map_eq_some'] at h
      obtain ⟨⟨d2, es2⟩, hvp, h⟩ := h
      rw [Prod.mk.injEq] at h
      rw [← h.2, ih hrest d2 es2 hvp]

theorem view_pass_mem (dt : String) (wt : Bool) :
    ∀ (entries : List (String × Field)) (d : Data) (es : List (String × Field)),
      view_pass dt wt entries = some (d, es) →
      ∀ nn : String, nn ∈ d.map Prod.fst ↔
        ∃ g : Field, (nn, g) ∈ entries ∧ g.track_changes = true ∧ Field.changed g = some wt := by
  intro entries
  induction entries with
  | nil =>
    intro d es h nn
    simp only [view_pass, Option.some.injEq, Prod.mk.injEq] at h
    rw [← h.1]
    simp
  | cons p rest ih =>
    obtain ⟨n, f⟩ := p
    intro d es h nn
    simp only [view_pass] at h
    by_cases htc : f.track_changes = true
    · rw [if_pos htc, Option.bind_eq_some] at h
      obtain ⟨c, hch, h⟩ := h
      by_cases hcw : c = wt
      · subst hcw
        rw [if_pos rfl, Option.bind_eq_some] at h
        obtain ⟨v, hv, h⟩ := h
        rw [Option.map_eq_some'] at h
        obtain ⟨⟨d2, es2⟩, hvp, h⟩ := h
        rw [Prod.mk.injEq] at h
        rw [← h.1, List.map_cons]
        constructor
        · intro hmem
          rcases List.mem_cons.mp hmem with hnn | hmem2
          · exact hnn ▸ ⟨f, List.mem_cons_self _ _, htc, hch⟩
          · obtain ⟨g, hg1, hg2, hg3⟩ := (ih d2 es2 hvp nn).mp hmem2
            exact ⟨g, List.mem_cons_of_mem _ hg1, hg2, hg3⟩
        · rintro ⟨g, hgmem, hgt, hgc⟩
          rcases List.mem_cons.mp hgmem with hg | hg
          · rw [Prod.mk.injEq] at hg
            exact List.mem_cons.mpr (Or.inl hg.1)
          · exact List.mem_cons.mpr (Or.inr ((ih d2 es2 hvp nn).mpr ⟨g, hg, hgt, hgc⟩))
      · rw [if_neg hcw, Option.map_eq_some'] at h
        obtain ⟨⟨d2, es2⟩, hvp, h⟩ := h
        rw [Prod.mk.injEq] at h
        rw [← h.1, ih d2 es2 hvp nn]
        constructor
        · rintro ⟨g, hg, hgt, hgc⟩
          exact ⟨g, List.mem_cons_of_mem _ hg, hgt, hgc⟩
        · rintro ⟨g, hgmem, hgt, hgc⟩
          rcases List.mem_cons.mp hgmem with hg | hg
          · rw [Prod.mk.injEq] at hg
            have hgf : g = f := hg.2
            subst hgf
            rw [hch] at hgc
            have : c = wt := Option.some.inj hgc
            exact absurd this hcw
          · exact ⟨g, hg, hgt, hgc⟩
    · rw [if_neg htc, Option.map_eq_some'] at h
      obtain ⟨⟨d2, es2⟩, hvp, h⟩ := h
      rw [Prod.mk.injEq] at h
      rw [← h.1, ih d2 es2 hvp nn]
      constructor
      · rintro ⟨g, hg, hgt, hgc⟩
        exact ⟨g, List.mem_cons_of_mem _ hg, hgt, hgc⟩
      · rintro ⟨g, hgmem, hgt, hgc⟩
        rcases List.mem_cons.mp hgmem with hg | hg
        · rw [Prod.mk.injEq] at hg
          have hgf : g = f := hg.2
          subst hgf
          exact absurd hgt htc
        · exact ⟨g, hg, hgt, hgc⟩

end Gizmo

namespace Gizmo

open PyVal

theorem ratTrunc_intCast (n : Int) : ratTrunc ((n : Rat)) = n := by
  unfold ratTrunc
  rw [Rat.num_intCast, Rat.den_intCast]
  split <;> rw [Nat.div_one] <;> omega

theorem ratTrunc_zero : ratTrunc 0 = 0 := rfl

theorem can_set_fst_none (f : Field) (h : f.set_max = none) : (f.can_set).1 = true := by
  simp only [Field.can_set, h]

theorem can_set_fst_le (f : Field) (m : Int) (h : f.set_max = some m)
    (h2 : (f.set_count : Int) ≤ m) : (f.can_set).1 = true := by
  simp only [Field.can_set, h, decide_eq_true_eq]
  exact h2

theorem can_set_fst_over (f : Field) (m : Int) (h : f.set_max = some m)
    (h2 : m < (f.set_count : Int)) : (f.can_set).1 = false := by
  simp only [Field.can_set, h, decide_eq_false_iff_not, not_le]
  exact h2

end Gizmo

namespace Gizmo

open PyVal

/-- Claim C1 (counterexample): an Integer field constructed with no value has
changed() = True immediately after construction, even though the stored raw
value (None) equals the initial value (None): changed() compares the initial
value with the coerced read, not with the stored raw value. -/
theorem changed_true_with_equal_raw_value :
    Field.changed exIntDefault = some true
    ∧ exIntDefault.field_value = exIntDefault.initial_value := ⟨rfl, rfl⟩

/-- Claim C3 (code-bug evaluation): for a Float field with no value set, the
native read returns None — Float spells its coercion `to_ptyhon`, so
`to_python` stays the inherited identity — while the misspelled method body
would have returned 0 as the spec states. -/
theorem float_native_read_uses_identity :
    Field.get_value exFloatDefault = some vnone
    ∧ Float_to_ptyhon exFloatDefault = some (vint 0)
    ∧ (some vnone ≠ some (vint 0)) := ⟨rfl, rfl, by simp⟩

/-- Claim C4 (counterexample): a DateTime field storing 1500 reads natively as
1 (1500 // 1000) but its transport read is 1500, not the native value scaled
by 1000 (which would be 1000) nor the stored value scaled by 1000. -/
theorem datetime_transport_unscaled :
    Field.get_value exDt1500 = some (vint 1)
    ∧ Field.get_value exDt1500g = some (vint 1500)
    ∧ PyVal.vint 1500 ≠ PyVal.vint (1 * 1000)
    ∧ PyVal.vint 1500 ≠ PyVal.vint (1500 * 1000) := ⟨rfl, rfl, by decide, by decide⟩

/-- Claim C5 (code-bug evaluation): the `value` property holds
`Field._set_value`, so assigning the non-member 'z' to an Enum field with
allowed = ['a','b'] updates the value to 'z'; the Enum._set_value override,
which would have kept 'a', is unreachable through the property. -/
theorem enum_allowed_guard_bypassed :
    Enum.init env0 (some [vstr "a", vstr "b"]) (vstr "a") "python" none true = some exEnum
    ∧ Field.get_value (Field.set_value env0 exEnum (vstr "z")) = some (vstr "z")
    ∧ Field.get_value (Enum_set_value exEnum (vstr "z")) = some (vstr "a") := ⟨rfl, rfl, rfl⟩

/-- Claim C6 (counterexample): in a collection whose only tracked field has
changed, the removed view is the singleton of that field's name, not the
empty set: changed and unchanged are disjoint, so their difference is all of
changed, not nothing. -/
theorem removed_nonempty :
    Fields.removed exFields = some ["a"] ∧ (["a"] : List String) ≠ [] := ⟨rfl, by simp⟩

/-- Claim C8 (counterexample): a String field constructed with no value reads
natively as None, not as the empty string. -/
theorem string_default_native_read_none :
    Field.get_value exStrDefault = some vnone
    ∧ (some vnone ≠ some (vstr "")) := ⟨rfl, by simp⟩

/-- Claim C9: for x in the two Boolean transport literals, the composite
toTransport(toNative(toTransport(x))) equals toTransport(x) (both render
"true", since the non-empty string "false" is truthy). -/
theorem boolean_transport_round_trip :
    boolRoundTrip (vstr "true") = boolToTransport (vstr "true")
    ∧ boolRoundTrip (vstr "false") = boolToTransport (vstr "false") := ⟨by decide, by decide⟩

end Gizmo

namespace Gizmo

open PyVal

/-- Claim C1 (amended): changed() is true exactly when the initial value
differs (Python !=) from the coerced value read — not from the stored raw
value — and consequently it is false immediately after construction for
String fields in the native representation, whose coercion is the identity,
though not for every typed field. -/
theorem changed_iff_initial_ne_coerced_read :
    (∀ (f : Field) (v : PyVal), Field.get_value f = some v →
      Field.changed f = some (!pyEq f.initial_value v))
    ∧ (∀ (env : Nat → PyVal) (v : PyVal) (sm : Option Int), v.isFn = false →
      Field.changed (Field.init env .string v "python" sm true) = some false) := by
  constructor
  · intro f v h
    simp [Field.changed, h]
  · intro env v sm hv
    have hw : (if pyTruthy v then v else FieldKind.default_value .string).isFn = false := by
      split
      · exact hv
      · rfl
    have hfv := init_field_value_not_fn env .string v "python" sm true hw
    have hiv := init_initial_value env .string v "python" sm true
    have hk := init_kind env .string v "python" sm true
    have hdt := init_data_type env .string v "python" sm true
    have hgv : Field.get_value (Field.init env .string v "python" sm true)
        = some (Field.init env .string v "python" sm true).field_value := by
      unfold Field.get_value Field.to_python
      rw [hdt, hk]
      simp
    rw [Field.changed, hgv, Option.map_some', hiv, hfv, pyEq_refl]
    rfl

/-- Claim C1 witness: concrete applications — a String field constructed with
no value is unchanged, and for the Integer default field changed() is the
negated Python equality of initial value and coerced read. -/
theorem changed_iff_initial_ne_coerced_read_witness :
    Field.changed exStrDefault = some false
    ∧ Field.changed exIntDefault = some (!pyEq exIntDefault.initial_value (vint 0)) :=
  ⟨changed_iff_initial_ne_coerced_read.2 env0 vnone none rfl,
   changed_iff_initial_ne_coerced_read.1 exIntDefault (vint 0) rfl⟩

/-- Claim C2: set_count increments on every assignment attempt (accepted or
not); an attempt finding set_count > set_max changes nothing but the
counter; and after a field constructed with set_max = m has received m
post-construction assignments, the next assignment leaves the value read
unchanged. -/
theorem set_max_bounds_assignment_attempts :
    (∀ (env : Nat → PyVal) (f : Field) (v : PyVal),
      (Field.set_value env f v).set_count = f.set_count + 1)
    ∧ (∀ (env : Nat → PyVal) (f : Field) (v : PyVal) (m : Int), f.set_max = some m →
        m < (f.set_count : Int) →
        Field.set_value env f v = { f with set_count := f.set_count + 1 })
    ∧ (∀ (env : Nat → PyVal) (m : Nat) (v a : PyVal) (args : List PyVal),
        args.length = m →
        Field.get_value (Field.set_value env
          (applySets env (Field.init env .base v "python" (some (m : Int)) true) args) a)
          = Field.get_value
            (applySets env (Field.init env .base v "python" (some (m : Int)) true) args)) := by
  refine ⟨set_value_set_count, ?_, ?_⟩
  · intro env f v m h1 h2
    exact set_value_rejected env f v (can_set_fst_over f m h1 h2)
  · intro env m v a args hlen
    have hmax : (applySets env (Field.init env .base v "python" (some (m : Int)) true)
        args).set_max = some (m : Int) := by
      rw [applySets_set_max, init_set_max]
    have hcnt : (applySets env (Field.init env .base v "python" (some (m : Int)) true)
        args).set_count = 1 + m := by
      rw [applySets_set_count, init_set_count, hlen]
    have hrej := can_set_fst_over _ (m : Int) hmax (by rw [hcnt]; push_cast; omega)
    rw [set_value_rejected env _ a hrej]
    exact get_value_ext _ _ rfl rfl rfl

/-- Claim C2 witness: with set_max = 1, the one permitted post-construction
assignment stores b and the following attempt is a no-op on the value read. -/
theorem set_max_bounds_assignment_attempts_witness :
    Field.get_value (Field.set_value env0
        (applySets env0 (Field.init env0 .base (vstr "a") "python" (some ((1 : Nat) : Int)) true)
          [vstr "b"]) (vstr "c"))
      = Field.get_value
          (applySets env0 (Field.init env0 .base (vstr "a") "python" (some ((1 : Nat) : Int)) true)
            [vstr "b"])
    ∧ Field.get_value
          (applySets env0 (Field.init env0 .base (vstr "a") "python" (some ((1 : Nat) : Int)) true)
            [vstr "b"]) = some (vstr "b") :=
  ⟨set_max_bounds_assignment_attempts.2.2 env0 1 (vstr "a") (vstr "c") [vstr "b"] rfl, rfl⟩

/-- Claim C10: construction performs one assignment through the guarded
path, so set_count = 1 immediately after construction; a field with
set_max = m rejects the (m+1)-th post-construction assignment, and with
set_max = 1 exactly one post-construction assignment is accepted. -/
theorem construction_counts_one_attempt :
    (∀ (env : Nat → PyVal) (kind : FieldKind) (v : PyVal) (dt : String)
        (sm : Option Int) (tc : Bool), (Field.init env kind v dt sm tc).set_count = 1)
    ∧ (∀ (env : Nat → PyVal) (m : Nat) (v a : PyVal) (args : List PyVal), args.length = m →
        (Field.set_value env
            (applySets env (Field.init env .base v "python" (some (m : Int)) true) args)
            a).field_value
          = (applySets env (Field.init env .base v "python" (some (m : Int)) true)
              args).field_value)
    ∧ (∀ (env : Nat → PyVal) (v w u : PyVal), w.isFn = false →
        (Field.set_value env (Field.init env .base v "python" (some (1 : Int)) true)
            w).field_value = w
        ∧ (Field.set_value env
            (Field.set_value env (Field.init env .base v "python" (some (1 : Int)) true) w)
            u).field_value = w) := by
  refine ⟨init_set_count, ?_, ?_⟩
  · intro env m v a args hlen
    have hmax : (applySets env (Field.init env .base v "python" (some (m : Int)) true)
        args).set_max = some (m : Int) := by
      rw [applySets_set_max, init_set_max]
    have hcnt : (applySets env (Field.init env .base v "python" (some (m : Int)) true)
        args).set_count = 1 + m := by
      rw [applySets_set_count, init_set_count, hlen]
    have hrej := can_set_fst_over _ (m : Int) hmax (by rw [hcnt]; push_cast; omega)
    rw [set_value_rejected env _ a hrej]
  · intro env v w u hw
    have hacc : ((Field.init env .base v "python" (some (1 : Int)) true).can_set).1 = true := by
      apply can_set_fst_le _ 1 (init_set_max env .base v "python" (some (1 : Int)) true)
      rw [init_set_count]
      simp
    have h1 : (Field.set_value env (Field.init env .base v "python" (some (1 : Int)) true)
        w).field_value = w := by
      rw [set_value_accepted env _ w hacc]
      exact resolveCallable_not_fn env w hw
    refine ⟨h1, ?_⟩
    have hcnt2 : (Field.set_value env (Field.init env .base v "python" (some (1 : Int)) true)
        w).set_count = 2 := by
      rw [set_value_set_count, init_set_count]
    have hmax2 : (Field.set_value env (Field.init env .base v "python" (some (1 : Int)) true)
        w).set_max = some (1 : Int) := by
      rw [set_value_set_max, init_set_max]
    have hrej := can_set_fst_over _ (1 : Int) hmax2 (by rw [hcnt2]; simp)
    rw [set_value_rejected env _ u hrej]
    exact h1

/-- Claim C10 witness: concrete run with set_max = 1: set_count is 1 after
construction, the first post-construction assignment lands, the second is a
no-op. -/
theorem construction_counts_one_attempt_witness :
    (Field.init env0 .base (vstr "a") "python" (some (1 : Int)) true).set_count = 1
    ∧ (Field.set_value env0 (Field.init env0 .base (vstr "a") "python" (some (1 : Int)) true)
        (vstr "b")).field_value = vstr "b"
    ∧ (Field.set_value env0
        (Field.set_value env0 (Field.init env0 .base (vstr "a") "python" (some (1 : Int)) true)
          (vstr "b")) (vstr "c")).field_value = vstr "b" :=
  ⟨construction_counts_one_attempt.1 env0 .base (vstr "a") "python" (some (1 : Int)) true,
   (construction_counts_one_attempt.2.2 env0 (vstr "a") (vstr "b") (vstr "c") rfl).1,
   (construction_counts_one_attempt.2.2 env0 (vstr "a") (vstr "b") (vstr "c") rfl).2⟩

end Gizmo

namespace Gizmo

open PyVal

/-- Claim C4 (amended): for DateTime/TimeStamp fields the native read is
int(float(stored)) floor-divided by 1000 (or 0 when the stored value is
unset), while the transport read is int(float(stored)) with no ×1000
scaling (or the empty string when unset). -/
theorem datetime_native_transport_semantics :
    (∀ (f : Field) (n : Int), (f.kind = FieldKind.datetime ∨ f.kind = FieldKind.timestamp) →
        f.field_value = vint n →
        (f.data_type = "python" → Field.get_value f = some (vint (Int.fdiv n 1000)))
        ∧ (f.data_type = "graph" → Field.get_value f = some (vint n)))
    ∧ (∀ f : Field, (f.kind = FieldKind.datetime ∨ f.kind = FieldKind.timestamp) →
        f.field_value = vnone →
        (f.data_type = "python" → Field.get_value f = some (vint 0))
        ∧ (f.data_type = "graph" → Field.get_value f = some (vstr ""))) := by
  constructor
  · intro f n hk hv
    constructor <;> intro hdt <;> rcases hk with hk | hk <;>
      simp [Field.get_value, hdt, Field.to_python, Field.to_graph, hk, hv, pyEq, PyVal.asNum,
        pyFloat, ratTrunc_intCast]
  · intro f hk hv
    constructor <;> intro hdt <;> rcases hk with hk | hk <;>
      simp [Field.get_value, hdt, Field.to_python, Field.to_graph, hk, hv, pyEq, PyVal.asNum,
        pyFloat, ratTrunc_intCast, ratTrunc_zero, Int.zero_fdiv]

/-- Claim C4 witness: the DateTime field holding 1500 reads natively as
1500 fdiv 1000 = 1 and in the transport representation as 1500. -/
theorem datetime_native_transport_semantics_witness :
    Field.get_value exDt1500 = some (vint (Int.fdiv 1500 1000))
    ∧ Field.get_value exDt1500g = some (vint 1500)
    ∧ Int.fdiv 1500 1000 = 1 :=
  ⟨(datetime_native_transport_semantics.1 exDt1500 1500 (Or.inl rfl) rfl).1 rfl,
   (datetime_native_transport_semantics.1 exDt1500g 1500 (Or.inl rfl) rfl).2 rfl,
   by decide⟩

/-- Claim C8 (amended): with no explicit initial value, each modelled scalar
field type's native read equals the native coercion of the raw default None:
String reads None natively (its transport read is the empty string),
Integer/Increment read 0, Boolean reads False, Float reads None (its
coercion override is misspelled), a DateTime field stores the result of
invoking the current-time callable, and an Enum with no value defaults to
the first allowed member. -/
theorem default_native_reads :
    (∀ env : Nat → PyVal,
      Field.get_value (Field.init env .string vnone "python" none true) = some vnone)
    ∧ (∀ env : Nat → PyVal,
      Field.get_value (Field.init env .string vnone "graph" none true) = some (vstr ""))
    ∧ (∀ env : Nat → PyVal,
      Field.get_value (Field.init env .base vnone "python" none true) = some vnone)
    ∧ (∀ env : Nat → PyVal,
      Field.get_value (Field.init env .integer vnone "python" none true) = some (vint 0))
    ∧ (∀ env : Nat → PyVal,
      Field.get_value (Field.init env .increment vnone "python" none true) = some (vint 0))
    ∧ (∀ env : Nat → PyVal,
      Field.get_value (Field.init env .boolean vnone "python" none true) = some (vbool false))
    ∧ (∀ env : Nat → PyVal,
      Field.get_value (Field.init env .float vnone "python" none true) = some vnone)
    ∧ (∀ env : Nat → PyVal,
      (Field.init env .datetime vnone "python" none true).field_value
        = env current_date_time_id)
    ∧ (∀ env : Nat → PyVal,
      (Enum.init env (some [vstr "a"]) vnone "python" none true).map Field.get_value
        = some (some (vstr "a"))) :=
  ⟨fun _ => rfl, fun _ => rfl, fun _ => rfl, fun _ => rfl, fun _ => rfl, fun _ => rfl,
   fun _ => rfl, fun _ => rfl, fun _ => rfl⟩

end Gizmo

namespace Gizmo

open PyVal

/-- Claim C6 (amended): the removed view is the key difference changed minus
unchanged, but since every tracked field lands in exactly one of the two
views (here: under unique names, with each field's representation already
matching the collection's so the views' data_type writes change nothing),
that difference equals the full set of changed names — it is empty only
when no tracked field has changed, not always. -/
theorem removed_equals_changed_names (fs : Fields)
    (hdt : ∀ p ∈ fs.entries, (p : String × Field).2.data_type = fs.data_type)
    (hnd : (fs.entries.map Prod.fst).Nodup) :
    ∀ c r, Fields.changed fs = some c → Fields.removed fs = some r →
      r = c.map Prod.fst := by
  intro c r hc hr
  simp only [Fields.changed, Option.map_eq_some'] at hc
  obtain ⟨⟨c0, es⟩, hvp1, hc⟩ := hc
  have hes : es = fs.entries := view_pass_entries fs.data_type true fs.entries hdt c0 es hvp1
  subst hes
  simp only [Fields.removed, hvp1, Option.some_bind, Option.map_eq_some'] at hr
  obtain ⟨⟨u0, es2⟩, hvp2, hr⟩ := hr
  subst hc
  rw [← hr]
  apply List.filter_eq_self.mpr
  intro n hn
  have hnc : n ∈ c0.map Prod.fst := (mem_map_fst_sortData n c0).mp hn
  obtain ⟨g, hg1, hg2, hg3⟩ := (view_pass_mem _ _ _ _ _ hvp1 n).mp hnc
  have hnu : n ∉ (sortData u0).map Prod.fst := by
    rw [mem_map_fst_sortData]
    intro hmem
    obtain ⟨g2, hh1, hh2, hh3⟩ := (view_pass_mem _ _ _ _ _ hvp2 n).mp hmem
    have hgg : g = g2 := keys_nodup_unique fs.entries hnd n g g2 hg1 hh1
    rw [hgg, hh3] at hg3
    exact absurd (Option.some.inj hg3) (by simp)
  simp [List.elem_eq_mem, hnu]

/-- Claim C6 witness: on the one-changed-field collection, removed equals
exactly the changed view's names. -/
theorem removed_equals_changed_names_witness :
    Fields.changed exFields = some [("a", vstr "y")]
    ∧ Fields.removed exFields = some ["a"]
    ∧ (["a"] : List String) = ([("a", vstr "y")] : Data).map Prod.fst :=
  ⟨rfl, rfl,
   removed_equals_changed_names exFields
     (by intro p hp
         simp only [exFields, List.mem_singleton] at hp
         subst hp
         rfl)
     (by simp [exFields])
     [("a", vstr "y")] ["a"] rfl rfl⟩

/-- Claim C7: given that every contained field's value read succeeds (and
every extra expander is a total function that may only return a dict or a
non-dict), full_data raises the ValueError exactly when some expander in the
run returns a non-dict, and otherwise returns the accumulated dict sorted by
key without raising. -/
theorem full_data_error_iff_nondict_expander (fs : Fields) (extra : List Expander)
    (hreads : ∀ p ∈ fs.entries,
      Field.get_value { (p : String × Field).2 with data_type := fs.data_type } ≠ none)
    (hext : ∀ e ∈ extra, ∀ d, e d ≠ ExpRes.raised) :
    (Fields.full_data fs extra = FullRes.valueError
      ↔ badStep (fs.get_data_expander :: extra) [] = true)
    ∧ (badStep (fs.get_data_expander :: extra) [] = false →
        ∃ d, Fields.full_data fs extra = FullRes.ok d
          ∧ d.Pairwise (fun a b => a.1 ≤ b.1))
    ∧ Fields.full_data fs extra ≠ FullRes.raised := by
  have hall : ∀ e ∈ (fs.get_data_expander :: extra), ∀ d, e d ≠ ExpRes.raised := by
    intro e he d
    rcases List.mem_cons.mp he with he | he
    · subst he
      exact get_data_expander_not_raised fs hreads d
    · exact hext e he d
  have hnr := run_expanders_not_raised _ hall []
  refine ⟨?_, ?_, ?_⟩
  · unfold Fields.full_data
    cases hrun : run_expanders (fs.get_data_expander :: extra) [] with
    | raised => exact absurd hrun hnr
    | valueError =>
      exact iff_of_true rfl ((run_expanders_valueError _ []).mp hrun)
    | ok d =>
      constructor
      · intro h
        exact absurd h (by simp)
      · intro hb
        have hve := (run_expanders_valueError (fs.get_data_expander :: extra) []).mpr hb
        rw [hrun] at hve
        exact absurd hve (by simp)
  · intro hb
    cases hrun : run_expanders (fs.get_data_expander :: extra) [] with
    | raised => exact absurd hrun hnr
    | valueError =>
      have := (run_expanders_valueError (fs.get_data_expander :: extra) []).mp hrun
      rw [this] at hb
      exact absurd hb (by simp)
    | ok d =>
      refine ⟨sortData d, ?_, pairwise_sortData d⟩
      unfold Fields.full_data
      rw [hrun]
  · unfold Fields.full_data
    cases hrun : run_expanders (fs.get_data_expander :: extra) [] with
    | raised => exact absurd hrun hnr
    | valueError => simp
    | ok d => simp

/-- Claim C7 witness: with one String field (whose read succeeds) and one
expander returning a non-dict, full_data fails with the ValueError. -/
theorem full_data_error_iff_nondict_expander_witness :
    Fields.full_data fsOneString [badExpander] = FullRes.valueError :=
  (full_data_error_iff_nondict_expander fsOneString [badExpander]
    (by intro p hp
        simp only [fsOneString, List.mem_singleton] at hp
        subst hp
        decide)
    (by intro e he d
        simp only [List.mem_singleton] at he
        subst he
        simp [badExpander])).1.mpr (by decide)

end Gizmo
